import Mathlib

set_option maxHeartbeats 1000000

/-!
Verification development for the Luma PPC32 machine-code emitter
(`src/luma.hpp`).  The emitter state is embedded shallowly: the code
buffer lives in a byte-addressed memory `mem : Nat → Nat`, the C++
pointers `code` and `currentPointer` become natural-number addresses,
and each emission routine is translated into a pure state transformer.
Pointer differences (`intptr_t`) become exact integers (a 64-bit host
where pointer subtraction does not overflow), and C bit operations on
signed values are modelled through the two's-complement residue
`Int.emod (2 ^ 64)`.  Fatal `panic` calls become `Except.error`.
-/

namespace Luma

/-- Branch kinds, from `enum class BranchType` in the source. -/
inductive BranchType
  | Branch14
  | Branch24
deriving DecidableEq, Repr

/-- State of `PPCEmitter`: the fields `code`, `currentPointer`,
`reservedSize`, `autoGrowSize` of the C++ class, plus the byte memory
the pointers point into. -/
structure PPCEmitter where
  code : Nat
  currentPointer : Nat
  reservedSize : Nat
  autoGrowSize : Nat
  mem : Nat → Nat

attribute [ext] PPCEmitter

/-- Store one byte at address `a` (bytes are kept reduced mod 256). -/
def store8 (m : Nat → Nat) (a v : Nat) : Nat → Nat :=
  fun x => if x = a then v % 256 else m x

/-- Store the `n` low-order bytes of `v` at addresses `a, a+1, ...`,
least significant byte first: the layout of a single `*(T*)p = val`
store on a little-endian host (emission is host-endian). -/
def storeLE (m : Nat → Nat) (a : Nat) : Nat → Nat → (Nat → Nat)
  | 0, _ => m
  | n + 1, v => storeLE (store8 m a v) (a + 1) n (v / 256)

/-- Read an `n`-byte little-endian value at address `a`. -/
def readLE (m : Nat → Nat) (a : Nat) : Nat → Nat
  | 0 => 0
  | n + 1 => m a + 256 * readLE m (a + 1) n

/-- `getCodeSize()` from the source: `currentPointer - code`. -/
def getCodeSize (e : PPCEmitter) : Nat :=
  e.currentPointer - e.code

/-- The `FixedSize` instantiation of the private `write<T>` template:
the `if constexpr (growMode == GrowingMode::AutoGrow)` block is compiled
out, so the value is stored at the cursor unconditionally — there is no
bounds check of any kind — and the cursor advances by `sizeof(T) = n`. -/
def write (n v : Nat) (e : PPCEmitter) : PPCEmitter :=
  { e with
    mem := storeLE e.mem e.currentPointer n v
    currentPointer := e.currentPointer + n }

/-- The grow branch of `write<T>` in `AutoGrow` mode: a new region of
`reservedSize + autoGrowSize` bytes is obtained at `newBase` (the
address the allocator returns), `memcpy` copies the `getCodeSize`
used bytes, the cursor keeps its relative position and `reservedSize`
is updated.  The copy is pointwise from the pre-copy memory, which is
`memcpy`'s behaviour for the non-overlapping region a fresh allocation
returns. -/
def growBuffer (newBase : Nat) (e : PPCEmitter) : PPCEmitter :=
  { e with
    code := newBase
    currentPointer := newBase + getCodeSize e
    reservedSize := e.reservedSize + e.autoGrowSize
    mem := fun a =>
      if newBase ≤ a ∧ a < newBase + getCodeSize e then
        e.mem (e.code + (a - newBase))
      else e.mem a }

/-- The `AutoGrow` instantiation of `write<T>`: grow first when
`currentSize + sizeof(T) >= reservedSize`, then store.  `newBase` is
the address of the freshly allocated buffer when a grow happens. -/
def writeAuto (newBase n v : Nat) (e : PPCEmitter) : PPCEmitter :=
  write n v (if getCodeSize e + n ≥ e.reservedSize then growBuffer newBase e else e)

/-- A fresh emitter as built by the constructor (buffer at `base`,
cursor at the start, default 64 KiB grow step, memory zeroed). -/
def mkEmitter (base size : Nat) : PPCEmitter :=
  { code := base
    currentPointer := base
    reservedSize := size
    autoGrowSize := 65536
    mem := fun _ => 0 }

/-- `setBuffer(pointer, bufferSize)` from the source; the alignment
panic is an error. -/
def setBuffer (pointer bufferSize : Nat) (e : PPCEmitter) : Except String PPCEmitter :=
  if bufferSize % 4 ≠ 0 then
    .error "Fatal: Buffer size is not word-aligned"
  else
    .ok { e with code := pointer, currentPointer := pointer, reservedSize := bufferSize }

/-- The low bits `d & m` of a C signed 64-bit value `d`, i.e. the
two's-complement residue masked by `m` (meaningful for `m < 2 ^ 64`). -/
def maskLow (d : Int) (m : Nat) : Nat :=
  (d % (2 ^ 64)).toNat &&& m

/-- `setLabel(label, address)`'s in-place patch of the branch word,
from the source.  `word` is the current 32-bit word at `instrAddress`.
`~0xFFFE` on a `uint32_t` is `0xFFFF0001` and `~0x3FFFFFE` is
`0xFC000001`.  The `(intptr_t)` reads of the two pointers are their
exact values (addresses below `2 ^ 63`). -/
def patchBranch (instrAddress : Nat) (ty : BranchType) (address : Nat) (word : Nat) :
    Except String Nat :=
  let disp : Int := (address : Int) - (instrAddress : Int)
  if disp % 4 ≠ 0 then
    .error "Fatal: Unaligned branch displacement"
  else
    match ty with
    | .Branch14 =>
      if disp ≤ 32767 ∧ -32768 ≤ disp then
        .ok ((word &&& 0xFFFF0001) ||| maskLow disp 0xFFFC)
      else if (address : Int) ≤ 32767 ∧ -32768 ≤ (address : Int) then
        .ok ((word &&& 0xFFFF0001) ||| (address &&& 0xFFFC) ||| 2)
      else
        .error "Invalid label for 14-bit branch"
    | .Branch24 =>
      if -0x2000000 ≤ disp ∧ disp ≤ 0x1FFFFFF then
        .ok ((word &&& 0xFC000001) ||| maskLow disp 0x3FFFFFC)
      else if -0x2000000 ≤ (address : Int) ∧ (address : Int) ≤ 0x1FFFFFF then
        .ok ((word &&& 0xFC000001) ||| (address &&& 0x3FFFFFC) ||| 2)
      else
        .error "Invalid label for 24-bit branch"

/-- `setLabel(label, address)` on the emitter state: read the word the
label points at, patch it, write it back.  The cursor does not move. -/
def setLabel (e : PPCEmitter) (label : Nat × BranchType) (address : Nat) :
    Except String PPCEmitter :=
  match patchBranch label.1 label.2 address (readLE e.mem label.1 4) with
  | .ok w => .ok { e with mem := storeLE e.mem label.1 4 w }
  | .error s => .error s

/-- `emitBranch14(opcode)`: remember the cursor, emit the word, return
the label `(cia, Branch14)`. -/
def emitBranch14 (opcode : Nat) (e : PPCEmitter) : PPCEmitter × (Nat × BranchType) :=
  (write 4 opcode e, (e.currentPointer, BranchType.Branch14))

/-- `bcx<cond, link>()` with `cond` the condition ordinal (the
`(uint32_t) cond` cast of the `Cond` enum). -/
def bcx (cond : Nat) (link : Bool) (e : PPCEmitter) : PPCEmitter × (Nat × BranchType) :=
  emitBranch14
    (0x40800000 ||| ((if cond ≤ 3 then 1 else 0) <<< 24) ||| ((cond &&& 3) <<< 16) |||
      (if link then 1 else 0)) e

/-- The label-returning `bx<link>()`: emit `0x48000000 | link`, return
`(cia, Branch24)`. -/
def bx (link : Bool) (e : PPCEmitter) : PPCEmitter × (Nat × BranchType) :=
  (write 4 (0x48000000 ||| (if link then 1 else 0)) e, (e.currentPointer, BranchType.Branch24))

/-- `bne()` is `bcx<Cond::Ne, false>()`; `Cond::Ne` has ordinal 6. -/
def bne (e : PPCEmitter) : PPCEmitter × (Nat × BranchType) :=
  bcx 6 false e

/-- `ori(dest, src, imm)` emission. -/
def ori (dest src imm : Nat) (e : PPCEmitter) : PPCEmitter :=
  write 4 (0x60000000 ||| (src <<< 21) ||| (dest <<< 16) ||| imm) e

/-- `nop()` is `ori(r0, r0, 0)`. -/
def nop (e : PPCEmitter) : PPCEmitter :=
  ori 0 0 0 e

/-- `writeZeros k` models `while (remainder--) write8 (0);`. -/
def writeZeros : Nat → PPCEmitter → PPCEmitter
  | 0, e => e
  | k + 1, e => writeZeros k (write 1 0 e)

/-- `align(bytes)` from the source: 1 is a no-op, anything below 1 is
fatal, and otherwise `remainder = (uintptr_t) getCurr() % bytes` zero
bytes are appended. -/
def align (bytes : Int) (e : PPCEmitter) : Except String PPCEmitter :=
  if bytes = 1 then
    .ok e
  else if bytes < 1 then
    .error "Fatal: Tried to align to a byte boundary below 1"
  else
    .ok (writeZeros (e.currentPointer % bytes.toNat) e)

/-- The C conversion of an `int` expression to a `uint8_t` parameter. -/
def u8 (i : Int) : Nat :=
  (i % 256).toNat

/-- The C conversion of an `int` expression to a `uint16_t` field. -/
def u16 (i : Int) : Nat :=
  (i % 65536).toNat

/-- The C conversion of low 16 bits to a signed `int16_t` value. -/
def toInt16 (x : Nat) : Int :=
  if x % 65536 < 32768 then (x % 65536 : Int) else (x % 65536 : Int) - 65536

/-- The word emitted by `rlwinm<setFlags>(dest, src, shift, mb, me)`. -/
def rlwinm (setFlags : Bool) (dest src shift mb me : Nat) : Nat :=
  0x54000000 ||| (src <<< 21) ||| (dest <<< 16) ||| ((shift &&& 31) <<< 11) ||| (mb <<< 6) |||
    (me <<< 1) ||| (if setFlags then 1 else 0)

/-- `slwi<f>(dest, src, shift)` = `rlwinm<f>(dest, src, shift, 0, 31 - shift)`;
the `int` expression `31 - shift` is converted to the `uint8_t` parameter. -/
def slwi (f : Bool) (dest src shift : Nat) : Nat :=
  rlwinm f dest src shift 0 (u8 (31 - (shift : Int)))

/-- `srwi<f>(dest, src, shift)` = `rlwinm<f>(dest, src, 32 - shift, shift, 31)`. -/
def srwi (f : Bool) (dest src shift : Nat) : Nat :=
  rlwinm f dest src (u8 (32 - (shift : Int))) shift 31

/-- `clrlwi<f>(dest, src, len)` = `rlwinm<f>(dest, src, 0, len, 31)`. -/
def clrlwi (f : Bool) (dest src len : Nat) : Nat :=
  rlwinm f dest src 0 len 31

/-- `clrrwi<f>(dest, src, len)` = `rlwinm<f>(dest, src, 0, 0, 31 - len)`. -/
def clrrwi (f : Bool) (dest src len : Nat) : Nat :=
  rlwinm f dest src 0 0 (u8 (31 - (len : Int)))

/-- `rotlwi<f>(dest, src, amount)` = `rlwinm<f>(dest, src, amount, 0, 31)`. -/
def rotlwi (f : Bool) (dest src amount : Nat) : Nat :=
  rlwinm f dest src amount 0 31

/-- `rotrwi<f>(dest, src, amount)` = `rlwinm<f>(dest, src, 32 - amount, 0, 31)`. -/
def rotrwi (f : Bool) (dest src amount : Nat) : Nat :=
  rlwinm f dest src (u8 (32 - (amount : Int))) 0 31

/-- `extlwi<f>(dest, src, n, b)` = `rlwinm<f>(dest, src, b, 0, n - 1)`. -/
def extlwi (f : Bool) (dest src n b : Nat) : Nat :=
  rlwinm f dest src b 0 (u8 ((n : Int) - 1))

/-- `extrwi<f>(dest, src, n, b)` = `rlwinm<f>(dest, src, b + n, 32 - n, 31)`. -/
def extrwi (f : Bool) (dest src n b : Nat) : Nat :=
  rlwinm f dest src (u8 ((b : Int) + (n : Int))) (u8 (32 - (n : Int))) 31

/-- The three primitive instructions `liw` expands to.  The immediate
of `addi`/`addis` is the `int16_t` argument of the C++ call; `ori`
takes a `uint16_t`. -/
inductive Instr
  | addi (dest src : Nat) (imm : Int)
  | addis (dest src : Nat) (imm : Int)
  | ori (dest src : Nat) (imm : Nat)
deriving DecidableEq, Repr

/-- The words the source emits for each instruction: `addi` is
`0x38000000 | (dest << 21) | (src << 16) | (uint16_t) imm`, `addis` is
the same with base `0x3C000000`, and `ori` is
`0x60000000 | (src << 21) | (dest << 16) | imm`. -/
def encodeInstr : Instr → Nat
  | .addi dest src imm => 0x38000000 ||| (dest <<< 21) ||| (src <<< 16) ||| u16 imm
  | .addis dest src imm => 0x3C000000 ||| (dest <<< 21) ||| (src <<< 16) ||| u16 imm
  | .ori dest src imm => 0x60000000 ||| (src <<< 21) ||| (dest <<< 16) ||| imm

/-- The instruction sequence emitted by `liw(reg, imm)`: the source
picks `li(reg, (int16_t) imm)` when `imm <= 0x7FFF || imm >= 0xFFFF8000`,
`lis(reg, imm >> 16)` when the low halfword is zero, and
`lis(reg, imm >> 16); ori(reg, reg, (uint16_t) imm)` otherwise, where
`li(r, i)` is `addi(r, r0, i)` and `lis(r, i)` is `addis(r, r0, i)`. -/
def liwInstrs (reg imm : Nat) : List Instr :=
  if imm ≤ 0x7FFF ∨ 0xFFFF8000 ≤ imm then
    [.addi reg 0 (toInt16 imm)]
  else if imm &&& 0xFFFF = 0 then
    [.addis reg 0 (toInt16 (imm >>> 16))]
  else
    [.addis reg 0 (toInt16 (imm >>> 16)), .ori reg reg (imm % 65536)]

/-- The words emitted by `liw(reg, imm)`. -/
def liwWords (reg imm : Nat) : List Nat :=
  (liwInstrs reg imm).map encodeInstr

/-- Abstract PPC register-file semantics of the three instructions
(the semantics the spec appeals to): `addi`/`addis` add the
sign-extended (and for `addis` 16-bit-shifted) immediate to the source
register, where source register 0 reads as the literal value 0; `ori`
ors the immediate into the source register value.  Results are 32-bit
truncated. -/
def stepInstr (regs : Nat → Nat) : Instr → (Nat → Nat)
  | .addi dest src imm => fun r =>
      if r = dest then (((if src = 0 then 0 else (regs src : Int)) + imm) % (2 ^ 32)).toNat
      else regs r
  | .addis dest src imm => fun r =>
      if r = dest then
        (((if src = 0 then 0 else (regs src : Int)) + imm * 65536) % (2 ^ 32)).toNat
      else regs r
  | .ori dest src imm => fun r =>
      if r = dest then regs src ||| imm else regs r

/-- Run a sequence of instructions on a register file. -/
def runInstrs (regs : Nat → Nat) : List Instr → (Nat → Nat)
  | [] => regs
  | i :: rest => runInstrs (stepInstr regs i) rest

/-! Memory-model lemmas. -/

theorem storeLE_eval (n : Nat) :
    ∀ (m : Nat → Nat) (a v x : Nat),
      storeLE m a n v x = if a ≤ x ∧ x < a + n then v / 256 ^ (x - a) % 256 else m x := by
  induction n with
  | zero =>
    intro m a v x
    simp only [storeLE]
    split
    · omega
    · rfl
  | succ n ih =>
    intro m a v x
    simp only [storeLE, ih]
    by_cases hx : a + 1 ≤ x ∧ x < a + 1 + n
    · have hx' : a ≤ x ∧ x < a + (n + 1) := by omega
      have hxa : x - a = (x - (a + 1)) + 1 := by omega
      simp only [if_pos hx, if_pos hx', hxa]
      rw [pow_succ, Nat.div_div_eq_div_mul, Nat.mul_comm 256 (256 ^ (x - (a + 1)))]
    · simp only [if_neg hx, store8]
      by_cases hxa : x = a
      · have hx' : a ≤ x ∧ x < a + (n + 1) := by omega
        simp [hxa, hx']
      · have hx' : ¬(a ≤ x ∧ x < a + (n + 1)) := by omega
        simp [hxa, hx']

theorem storeLE_outside {m : Nat → Nat} {a v x : Nat} (n : Nat)
    (h : x < a ∨ a + n ≤ x) : storeLE m a n v x = m x := by
  rw [storeLE_eval]
  have h' : ¬(a ≤ x ∧ x < a + n) := by omega
  simp [h']

theorem readLE_storeLE (n : Nat) :
    ∀ (m : Nat → Nat) (a v : Nat), readLE (storeLE m a n v) a n = v % 256 ^ n := by
  induction n with
  | zero => intro m a v; simp [readLE, Nat.mod_one]
  | succ n ih =>
    intro m a v
    simp only [storeLE, readLE]
    have h1 : storeLE (store8 m a v) (a + 1) n (v / 256) a = store8 m a v a := by
      apply storeLE_outside
      omega
    rw [h1, ih]
    simp only [store8, if_pos rfl]
    rw [Nat.pow_succ', Nat.mod_mul]
    simp

theorem storeLE_storeLE_same (m : Nat → Nat) (a n v : Nat) :
    storeLE (storeLE m a n v) a n v = storeLE m a n v := by
  funext x
  simp only [storeLE_eval]
  by_cases h : a ≤ x ∧ x < a + n <;> simp [h]

theorem readLE_write (n v : Nat) (e : PPCEmitter) :
    readLE (write n v e).mem e.currentPointer n = v % 256 ^ n := by
  simp only [write]
  exact readLE_storeLE n e.mem e.currentPointer v

theorem write_mem_outside (n v : Nat) (e : PPCEmitter) (x : Nat)
    (h : x < e.currentPointer ∨ e.currentPointer + n ≤ x) :
    (write n v e).mem x = e.mem x := by
  simp only [write]
  exact storeLE_outside n h

/-! Claim theorems. -/

/-- C1: for every label token `(B, kind)` and target address `T`,
the `setLabel` word patch with `disp = T - B` is: fatal when `disp`
has nonzero low two bits; for `Branch14`, in the signed-16 range the
word becomes `(word & ~0xFFFE) | (disp & 0xFFFC)`, else if `T` is in
the signed-16 range as an absolute address it becomes
`(word & ~0xFFFE) | (T & 0xFFFC) | 2`, else fatal; for `Branch24` the
same shape with mask `0x3FFFFFC`, clear-mask `~0x3FFFFFE` and range
`[-0x2000000, 0x1FFFFFF]`. -/
theorem setLabel_patch_cases (B T word : Nat) :
    (((T : Int) - (B : Int)) % 4 ≠ 0 →
      ∀ ty, patchBranch B ty T word = .error "Fatal: Unaligned branch displacement") ∧
    (((T : Int) - (B : Int)) % 4 = 0 →
      ((-32768 ≤ (T : Int) - (B : Int) ∧ (T : Int) - (B : Int) ≤ 32767 →
        patchBranch B .Branch14 T word =
          .ok ((word &&& 0xFFFF0001) ||| maskLow ((T : Int) - (B : Int)) 0xFFFC)) ∧
      (¬(-32768 ≤ (T : Int) - (B : Int) ∧ (T : Int) - (B : Int) ≤ 32767) → T ≤ 32767 →
        patchBranch B .Branch14 T word =
          .ok ((word &&& 0xFFFF0001) ||| (T &&& 0xFFFC) ||| 2)) ∧
      (¬(-32768 ≤ (T : Int) - (B : Int) ∧ (T : Int) - (B : Int) ≤ 32767) → 32767 < T →
        patchBranch B .Branch14 T word = .error "Invalid label for 14-bit branch")) ∧
      ((-0x2000000 ≤ (T : Int) - (B : Int) ∧ (T : Int) - (B : Int) ≤ 0x1FFFFFF →
        patchBranch B .Branch24 T word =
          .ok ((word &&& 0xFC000001) ||| maskLow ((T : Int) - (B : Int)) 0x3FFFFFC)) ∧
      (¬(-0x2000000 ≤ (T : Int) - (B : Int) ∧ (T : Int) - (B : Int) ≤ 0x1FFFFFF) →
          T ≤ 0x1FFFFFF →
        patchBranch B .Branch24 T word =
          .ok ((word &&& 0xFC000001) ||| (T &&& 0x3FFFFFC) ||| 2)) ∧
      (¬(-0x2000000 ≤ (T : Int) - (B : Int) ∧ (T : Int) - (B : Int) ≤ 0x1FFFFFF) →
          0x1FFFFFF < T →
        patchBranch B .Branch24 T word = .error "Invalid label for 24-bit branch"))) := by
  constructor
  · intro h ty
    cases ty <;> simp [patchBranch, h]
  · intro h
    constructor
    · refine ⟨?_, ?_, ?_⟩
      · intro hr
        have h1 : ((T : Int) - (B : Int) ≤ 32767 ∧ -32768 ≤ (T : Int) - (B : Int)) := by omega
        simp [patchBranch, h, h1]
      · intro hr hT
        have h1 : ¬((T : Int) - (B : Int) ≤ 32767 ∧ -32768 ≤ (T : Int) - (B : Int)) := by omega
        have h2 : ((T : Int) ≤ 32767 ∧ -32768 ≤ (T : Int)) := by omega
        simp [patchBranch, h, h1, h2]
        intro hc1 hc2
        exfalso
        omega
      · intro hr hT
        have h1 : ¬((T : Int) - (B : Int) ≤ 32767 ∧ -32768 ≤ (T : Int) - (B : Int)) := by omega
        have h2 : ¬((T : Int) ≤ 32767 ∧ -32768 ≤ (T : Int)) := by omega
        simp [patchBranch, h, h1, h2]
        split_ifs <;> first | rfl | (exfalso; omega)
    · refine ⟨?_, ?_, ?_⟩
      · intro hr
        have h1 : (-0x2000000 ≤ (T : Int) - (B : Int) ∧ (T : Int) - (B : Int) ≤ 0x1FFFFFF) := by
          omega
        simp [patchBranch, h, h1]
      · intro hr hT
        have h1 : ¬(-0x2000000 ≤ (T : Int) - (B : Int) ∧ (T : Int) - (B : Int) ≤ 0x1FFFFFF) := hr
        have h2 : (-0x2000000 ≤ (T : Int) ∧ (T : Int) ≤ 0x1FFFFFF) := by omega
        simp [patchBranch, h, h1, h2]
        intro hc1 hc2
        exfalso
        omega
      · intro hr hT
        have h1 : ¬(-0x2000000 ≤ (T : Int) - (B : Int) ∧ (T : Int) - (B : Int) ≤ 0x1FFFFFF) := hr
        have h2 : ¬(-0x2000000 ≤ (T : Int) ∧ (T : Int) ≤ 0x1FFFFFF) := by omega
        simp [patchBranch, h, h1, h2]
        split_ifs <;> first | rfl | (exfalso; omega)

/-- C1 witness: a concrete in-range forward `Branch14` resolution. -/
theorem setLabel_patch_cases_spot :
    (((8 : Nat) : Int) - ((0 : Nat) : Int)) % 4 = 0 ∧
      patchBranch 0 .Branch14 8 0x40820000 =
        .ok ((0x40820000 &&& 0xFFFF0001) ||| maskLow (((8 : Nat) : Int) - ((0 : Nat) : Int)) 0xFFFC) :=
  ⟨by decide, ((setLabel_patch_cases 0 8 0x40820000).2 (by decide)).1.1 (by constructor <;> decide)⟩

/-- C2: for every condition ordinal `cond < 8` and link flag, `bcx`
appends exactly one word, `0x40800000 | (1 << 24 if cond ≤ 3) |
((cond & 3) << 16) | link` (displacement field zero), and returns the
label `(cursor before the append, Branch14)`; likewise `b()`/`bl()`
(that is, `bx<link>()`) append `0x48000000 | link` and return a
`Branch24` label. -/
theorem bcx_bx_emission (cond : Nat) (link : Bool) (e : PPCEmitter) (_hc : cond < 8) :
    (bcx cond link e).2 = (e.currentPointer, BranchType.Branch14) ∧
    (bcx cond link e).1.currentPointer = e.currentPointer + 4 ∧
    readLE (bcx cond link e).1.mem e.currentPointer 4 =
      0x40800000 ||| ((if cond ≤ 3 then 1 else 0) <<< 24) ||| ((cond &&& 3) <<< 16) |||
        (if link then 1 else 0) ∧
    (∀ x, x < e.currentPointer ∨ e.currentPointer + 4 ≤ x →
      (bcx cond link e).1.mem x = e.mem x) ∧
    (bx link e).2 = (e.currentPointer, BranchType.Branch24) ∧
    (bx link e).1.currentPointer = e.currentPointer + 4 ∧
    readLE (bx link e).1.mem e.currentPointer 4 = 0x48000000 ||| (if link then 1 else 0) ∧
    (∀ x, x < e.currentPointer ∨ e.currentPointer + 4 ≤ x →
      (bx link e).1.mem x = e.mem x) := by
  have hpow : (256 : Nat) ^ 4 = 2 ^ 32 := by norm_num
  have hbit : ((if cond ≤ 3 then 1 else 0) : Nat) <<< 24 < 2 ^ 32 := by
    split <;> decide
  have hcc : (cond &&& 3) < 4 := Nat.and_lt_two_pow cond (show (3 : Nat) < 2 ^ 2 by decide)
  have hdisp : (cond &&& 3) <<< 16 < 2 ^ 32 := by
    have : (cond &&& 3) <<< 16 = (cond &&& 3) * 65536 := Nat.shiftLeft_eq _ _
    omega
  have hlink : ((if link then 1 else 0) : Nat) < 2 ^ 32 := by
    split <;> decide
  have hw : 0x40800000 ||| ((if cond ≤ 3 then 1 else 0) <<< 24) ||| ((cond &&& 3) <<< 16) |||
      (if link then 1 else 0) < 2 ^ 32 := by
    apply Nat.or_lt_two_pow _ hlink
    apply Nat.or_lt_two_pow _ hdisp
    apply Nat.or_lt_two_pow _ hbit
    decide
  have hw24 : (0x48000000 : Nat) ||| (if link then 1 else 0) < 2 ^ 32 := by
    apply Nat.or_lt_two_pow _ hlink
    decide
  refine ⟨rfl, rfl, ?_, ?_, rfl, rfl, ?_, ?_⟩
  · show readLE (write 4 _ e).mem e.currentPointer 4 = _
    rw [readLE_write, hpow, Nat.mod_eq_of_lt hw]
  · intro x hx
    exact write_mem_outside 4 _ e x hx
  · show readLE (write 4 _ e).mem e.currentPointer 4 = _
    rw [readLE_write, hpow, Nat.mod_eq_of_lt hw24]
  · intro x hx
    exact write_mem_outside 4 _ e x hx

/-- C2 witness: `bne()` (ordinal 6, no link) on a fresh emitter. -/
theorem bcx_bx_emission_spot :
    (6 : Nat) < 8 ∧
      (bcx 6 false (mkEmitter 0 64)).2 = ((mkEmitter 0 64).currentPointer, BranchType.Branch14) :=
  ⟨by decide, (bcx_bx_emission 6 false (mkEmitter 0 64) (by decide)).1⟩

/-- C3: every rotate-and-mask alias emits exactly the word of the raw
`rlwinm` call with the aliased fields of spec section 4.3, for GPRs
`d`, `s`, any set-flags value and arguments in the legal range 0..31
(`n ≥ 1` for the extract forms). -/
theorem rlwinm_alias_words (d s : Nat) (f : Bool) (n b : Nat) (hn : n ≤ 31) (hb : b ≤ 31) :
    slwi f d s n = rlwinm f d s n 0 (31 - n) ∧
    srwi f d s n = rlwinm f d s (32 - n) n 31 ∧
    clrlwi f d s n = rlwinm f d s 0 n 31 ∧
    clrrwi f d s n = rlwinm f d s 0 0 (31 - n) ∧
    rotlwi f d s n = rlwinm f d s n 0 31 ∧
    rotrwi f d s n = rlwinm f d s (32 - n) 0 31 ∧
    (1 ≤ n → extlwi f d s n b = rlwinm f d s b 0 (n - 1)) ∧
    (1 ≤ n → extrwi f d s n b = rlwinm f d s (b + n) (32 - n) 31) := by
  have e31 : u8 (31 - (n : Int)) = 31 - n := by
    simp only [u8]
    omega
  have e32 : u8 (32 - (n : Int)) = 32 - n := by
    simp only [u8]
    omega
  have ebn : u8 ((b : Int) + (n : Int)) = b + n := by
    simp only [u8]
    omega
  refine ⟨?_, ?_, rfl, ?_, rfl, ?_, ?_, ?_⟩
  · rw [slwi, e31]
  · rw [srwi, e32]
  · rw [clrrwi, e31]
  · rw [rotrwi, e32]
  · intro h1
    have en1 : u8 ((n : Int) - 1) = n - 1 := by
      simp only [u8]
      omega
    rw [extlwi, en1]
  · intro h1
    rw [extrwi, ebn, e32]

/-- C3 witness: the aliases at `d = 3`, `s = 4`, `n = 5`, `b = 7`. -/
theorem rlwinm_alias_words_spot :
    (5 : Nat) ≤ 31 ∧ (7 : Nat) ≤ 31 ∧
      slwi false 3 4 5 = rlwinm false 3 4 5 0 (31 - 5) :=
  ⟨by decide, by decide, (rlwinm_alias_words 3 4 false 5 7 (by decide) (by decide)).1⟩

theorem u16_toInt16 (x : Nat) : u16 (toInt16 x) = x % 65536 := by
  simp only [u16, toInt16]
  split <;> omega

theorem div_shl_or_mod (v : Nat) : v / 65536 * 65536 ||| v % 65536 = v := by
  have h16 : (65536 : Nat) = 2 ^ 16 := by norm_num
  have hL : v / 65536 * 65536 = (v >>> 16) <<< 16 := by
    rw [Nat.shiftRight_eq_div_pow, Nat.shiftLeft_eq, h16]
  apply Nat.eq_of_testBit_eq
  intro i
  rw [hL]
  rcases Nat.lt_or_ge i 16 with hi | hi
  · have h1 : ¬ i ≥ 16 := by omega
    have hd1 : decide (i ≥ 16) = false := by simp [h1]
    have hd2 : decide (i < 16) = true := by simp [hi]
    rw [Nat.testBit_or, Nat.testBit_shiftLeft, hd1, h16, Nat.testBit_mod_two_pow, hd2]
    simp
  · have h1 : ¬ i < 16 := by omega
    have h2 : 16 + (i - 16) = i := by omega
    have hd1 : decide (i ≥ 16) = true := by simp [hi]
    have hd2 : decide (i < 16) = false := by simp [h1]
    rw [Nat.testBit_or, Nat.testBit_shiftLeft, hd1, h16, Nat.testBit_mod_two_pow, hd2,
      Nat.testBit_shiftRight, h2]
    simp

/-- C4: for every GPR and 32-bit value `v`, `liw` emits the one-word
`li` form when `v ≤ 0x7FFF` or `v ≥ 0xFFFF8000`, the one-word `lis`
form when the low halfword is zero, and the two-word `lis; ori`
sequence otherwise; under the abstract PPC semantics of
`addi`/`addis`/`ori` the emitted sequence leaves exactly `v` in the
register. -/
theorem liw_loads_exact (reg v : Nat) (regs : Nat → Nat) (_hreg : reg < 32) (hv : v < 2 ^ 32) :
    ((v ≤ 0x7FFF ∨ 0xFFFF8000 ≤ v) →
      liwWords reg v = [0x38000000 ||| (reg <<< 21) ||| (0 <<< 16) ||| v % 65536]) ∧
    (¬(v ≤ 0x7FFF ∨ 0xFFFF8000 ≤ v) → v &&& 0xFFFF = 0 →
      liwWords reg v = [0x3C000000 ||| (reg <<< 21) ||| (0 <<< 16) ||| v >>> 16]) ∧
    (¬(v ≤ 0x7FFF ∨ 0xFFFF8000 ≤ v) → v &&& 0xFFFF ≠ 0 →
      liwWords reg v =
        [0x3C000000 ||| (reg <<< 21) ||| (0 <<< 16) ||| v >>> 16,
          0x60000000 ||| (reg <<< 21) ||| (reg <<< 16) ||| v % 65536]) ∧
    runInstrs regs (liwInstrs reg v) reg = v := by
  have hhi : u16 (toInt16 (v >>> 16)) = v >>> 16 := by
    rw [u16_toInt16]
    rw [Nat.shiftRight_eq_div_pow]
    omega
  refine ⟨?_, ?_, ?_, ?_⟩
  · intro hcond
    simp only [liwWords, liwInstrs, if_pos hcond, List.map, encodeInstr, u16_toInt16]
  · intro hcond hlo
    simp only [liwWords, liwInstrs, if_neg hcond, if_pos hlo, List.map, encodeInstr, hhi]
  · intro hcond hlo
    simp only [liwWords, liwInstrs, if_neg hcond, if_neg hlo, List.map, encodeInstr, hhi]
  · by_cases hcond : v ≤ 0x7FFF ∨ 0xFFFF8000 ≤ v
    · simp only [liwInstrs, if_pos hcond, runInstrs, stepInstr]
      simp only [if_pos rfl, ite_true, zero_add]
      simp only [toInt16]
      split <;> omega
    · have hstep1 : ((toInt16 (v >>> 16) * 65536) % (2 ^ 32)).toNat = v / 65536 * 65536 := by
        simp only [toInt16, Nat.shiftRight_eq_div_pow]
        split <;> omega
      by_cases hlo : v &&& 0xFFFF = 0
      · have hv16 : v % 65536 = 0 := by
          have := Nat.and_pow_two_sub_one_eq_mod v 16
          norm_num at this
          omega
        simp only [liwInstrs, if_neg hcond, if_pos hlo, runInstrs, stepInstr]
        simp only [if_pos rfl, ite_true, zero_add]
        rw [hstep1]
        omega
      · simp only [liwInstrs, if_neg hcond, if_neg hlo, runInstrs, stepInstr]
        simp only [if_pos rfl, ite_true, zero_add]
        rw [hstep1]
        exact div_shl_or_mod v

/-- C4 witness: `liw(r3, 0x12345678)` (the two-word case). -/
theorem liw_loads_exact_spot :
    (3 : Nat) < 32 ∧ (0x12345678 : Nat) < 2 ^ 32 ∧
      runInstrs (fun _ => 0) (liwInstrs 3 0x12345678) 3 = 0x12345678 :=
  ⟨by decide, by decide,
    (liw_loads_exact 3 0x12345678 (fun _ => 0) (by decide) (by decide)).2.2.2⟩

/-- C5 (code bug): `align` computes `remainder = cursor % bytes` and
appends that many zero bytes, so from a cursor at address 1 (one `db`
after a word-aligned base) `align(4)` appends one byte and leaves the
cursor at address 2 — `2 % 4 ≠ 0`, contradicting the spec's
"append zero bytes until `cursor % n == 0`".  The `n == 1` no-op and
the `n < 1` fatal cases do behave as specified. -/
theorem align_leaves_cursor_misaligned :
    (align 4 (write 1 0 (mkEmitter 0 64))).map (fun e => e.currentPointer % 4) =
      .ok 2 ∧
    (align 1 (write 1 0 (mkEmitter 0 64))).map (fun e => e.currentPointer) = .ok 1 ∧
    align 0 (write 1 0 (mkEmitter 0 64)) =
      .error "Fatal: Tried to align to a byte boundary below 1" ∧
    align (-3) (write 1 0 (mkEmitter 0 64)) =
      .error "Fatal: Tried to align to a byte boundary below 1" :=
  ⟨rfl, rfl, rfl, rfl⟩

/-- C6 (code bug): in `FixedSize` mode `write<T>` performs no bounds
check at all — the `if constexpr` grow test only exists in `AutoGrow`
mode — so on a 4-byte buffer two 4-byte appends complete without any
error branch, leaving the cursor 8 bytes past a 4-byte reservation:
the out-of-bounds store does happen and nothing is fatal. -/
theorem fixedsize_overflow_unchecked :
    getCodeSize (write 4 0 (write 4 0 (mkEmitter 0 4))) = 8 ∧
    (write 4 0 (write 4 0 (mkEmitter 0 4))).reservedSize = 4 :=
  ⟨rfl, rfl⟩

/-- C7 counterexample: an append that exactly fills the reserved
buffer (used 0 + size 4 = reserved 4, not strictly past the end) does
trigger a grow — the reserved size changes — because the source tests
`currentSize + sizeof(T) >= reservedSize`, refuting the claim's
"an append that exactly fills the buffer does not grow". -/
theorem writeAuto_exact_fill_grows :
    getCodeSize (mkEmitter 0 4) + 4 = (mkEmitter 0 4).reservedSize ∧
    (writeAuto 4096 4 0 (mkEmitter 0 4)).reservedSize ≠ (mkEmitter 0 4).reservedSize :=
  ⟨rfl, by decide⟩

/-- C7 (amended): an `AutoGrow` append grows exactly when
`used + size ≥ reserved` (so an append that exactly fills the buffer
also grows); on a grow the new reserved size is the old plus the grow
step, the first `used` bytes of content are preserved at the new base,
and the used size immediately after the grow equals the used size
before it. -/
theorem writeAuto_grow_spec (newBase n v : Nat) (e : PPCEmitter) :
    (getCodeSize e + n ≥ e.reservedSize →
      writeAuto newBase n v e = write n v (growBuffer newBase e) ∧
      (growBuffer newBase e).reservedSize = e.reservedSize + e.autoGrowSize ∧
      getCodeSize (growBuffer newBase e) = getCodeSize e ∧
      ∀ i, i < getCodeSize e → (growBuffer newBase e).mem (newBase + i) = e.mem (e.code + i)) ∧
    (getCodeSize e + n < e.reservedSize → writeAuto newBase n v e = write n v e) := by
  constructor
  · intro h
    refine ⟨?_, rfl, ?_, ?_⟩
    · rw [writeAuto, if_pos h]
    · simp only [getCodeSize, growBuffer]
      omega
    · intro i hi
      simp only [growBuffer]
      rw [if_pos (by omega : newBase ≤ newBase + i ∧ newBase + i < newBase + getCodeSize e)]
      congr 1
      omega
  · intro h
    rw [writeAuto, if_neg (by omega)]

/-- C7 witness: the amended grow rule applied at the exact-fill
input. -/
theorem writeAuto_grow_spec_spot :
    getCodeSize (mkEmitter 0 4) + 4 ≥ (mkEmitter 0 4).reservedSize ∧
      (growBuffer 4096 (mkEmitter 0 4)).reservedSize =
        (mkEmitter 0 4).reservedSize + (mkEmitter 0 4).autoGrowSize :=
  ⟨by decide, ((writeAuto_grow_spec 4096 4 0 (mkEmitter 0 4)).1 (by decide)).2.1⟩

/-- Forward scenario: `L = bne(); nop(); setLabel(L)` (target is the
cursor after the `nop`). -/
def fwdExample : Except String PPCEmitter :=
  let p := bne (mkEmitter 0 64)
  let e2 := nop p.1
  setLabel e2 p.2 e2.currentPointer

/-- Backward scenario: `P = getCurr(); nop(); L = bne(); setLabel(L, P)`. -/
def bwdExample : Except String PPCEmitter :=
  let e1 := nop (mkEmitter 0 64)
  let p := bne e1
  setLabel p.1 p.2 (mkEmitter 0 64).currentPointer

/-- Immediate forward scenario: `L = bne(); setLabel(L)` (resolved to
the word immediately following the branch). -/
def fwdNextExample : Except String PPCEmitter :=
  let p := bne (mkEmitter 0 64)
  setLabel p.1 p.2 p.1.currentPointer

/-- C8: `setLabel` encodes the displacement `target - branch_address`:
`bne(); nop(); setLabel(L)` yields the words `0x40820008, 0x60000000`
(forward, +8), `P = getCurr(); nop(); L = bne(); setLabel(L, P)`
yields `0x60000000, 0x4082FFFC` (backward, -4), and a branch resolved
to the word immediately following it encodes +4 (`0x40820004`). -/
theorem branch_resolution_examples :
    (fwdExample.map fun e => (readLE e.mem 0 4, readLE e.mem 4 4)) =
      .ok (0x40820008, 0x60000000) ∧
    (bwdExample.map fun e => (readLE e.mem 0 4, readLE e.mem 4 4)) =
      .ok (0x60000000, 0x4082FFFC) ∧
    (fwdNextExample.map fun e => readLE e.mem 0 4) = .ok 0x40820004 :=
  ⟨rfl, rfl, rfl⟩

theorem or_and_cancel (w f c : Nat) (hfc : f &&& c = 0) :
    ((w &&& c) ||| f) &&& c = w &&& c := by
  rw [Nat.and_distrib_right, Nat.and_assoc, Nat.and_self, hfc, Nat.or_zero]

theorem or2_and_cancel (w g c : Nat) (hg : g &&& c = 0) (h2 : (2 : Nat) &&& c = 0) :
    (((w &&& c) ||| g) ||| 2) &&& c = w &&& c := by
  rw [Nat.and_distrib_right, Nat.and_distrib_right, Nat.and_assoc, Nat.and_self, hg, h2,
    Nat.or_zero, Nat.or_zero]

theorem and_and_zero (x M c : Nat) (h : M &&& c = 0) : (x &&& M) &&& c = 0 := by
  rw [Nat.and_assoc, h, Nat.and_zero]

theorem maskLow_and_zero (d : Int) (M c : Nat) (h : M &&& c = 0) : maskLow d M &&& c = 0 := by
  rw [maskLow, Nat.and_assoc, h, Nat.and_zero]

theorem patchBranch_lt (B T w w' : Nat) (ty : BranchType)
    (h : patchBranch B ty T w = .ok w') : w' < 2 ^ 32 := by
  have hc14 : w &&& 0xFFFF0001 < 2 ^ 32 := Nat.and_lt_two_pow w (by norm_num)
  have hc24 : w &&& 0xFC000001 < 2 ^ 32 := Nat.and_lt_two_pow w (by norm_num)
  cases ty with
  | Branch14 =>
    simp only [patchBranch] at h
    split at h
    · simp at h
    · split at h
      · rw [Except.ok.injEq] at h
        subst h
        exact Nat.or_lt_two_pow hc14 (Nat.and_lt_two_pow _ (by norm_num))
      · split at h
        · rw [Except.ok.injEq] at h
          subst h
          exact Nat.or_lt_two_pow (Nat.or_lt_two_pow hc14 (Nat.and_lt_two_pow _ (by norm_num)))
            (by norm_num)
        · simp at h
  | Branch24 =>
    simp only [patchBranch] at h
    split at h
    · simp at h
    · split at h
      · rw [Except.ok.injEq] at h
        subst h
        exact Nat.or_lt_two_pow hc24 (Nat.and_lt_two_pow _ (by norm_num))
      · split at h
        · rw [Except.ok.injEq] at h
          subst h
          exact Nat.or_lt_two_pow (Nat.or_lt_two_pow hc24 (Nat.and_lt_two_pow _ (by norm_num)))
            (by norm_num)
        · simp at h

theorem patchBranch_idem (B T w w' : Nat) (ty : BranchType)
    (h : patchBranch B ty T w = .ok w') : patchBranch B ty T w' = .ok w' := by
  cases ty with
  | Branch14 =>
    simp only [patchBranch] at h ⊢
    split at h
    · simp at h
    case _ ha =>
      rw [if_neg ha]
      split at h
      case _ hr =>
        rw [Except.ok.injEq] at h
        subst h
        rw [if_pos hr, or_and_cancel _ _ _ (maskLow_and_zero _ _ _ (by decide))]
      case _ hr =>
        rw [if_neg hr]
        split at h
        case _ habs =>
          rw [Except.ok.injEq] at h
          subst h
          rw [if_pos habs, or2_and_cancel _ _ _ (and_and_zero _ _ _ (show (65532 : Nat) &&& 4294901761 = 0 by decide)) (by decide)]
        case _ habs =>
          simp at h
  | Branch24 =>
    simp only [patchBranch] at h ⊢
    split at h
    · simp at h
    case _ ha =>
      rw [if_neg ha]
      split at h
      case _ hr =>
        rw [Except.ok.injEq] at h
        subst h
        rw [if_pos hr, or_and_cancel _ _ _ (maskLow_and_zero _ _ _ (by decide))]
      case _ hr =>
        rw [if_neg hr]
        split at h
        case _ habs =>
          rw [Except.ok.injEq] at h
          subst h
          rw [if_pos habs, or2_and_cancel _ _ _ (and_and_zero _ _ _ (show (67108860 : Nat) &&& 4227858433 = 0 by decide)) (by decide)]
        case _ habs =>
          simp at h

/-- C9: resolving the same label to the same target twice leaves the
emitter state — the patched word and the rest of the buffer —
identical to resolving it once. -/
theorem setLabel_idempotent (e : PPCEmitter) (l : Nat × BranchType) (T : Nat)
    (e1 : PPCEmitter) (h : setLabel e l T = .ok e1) : setLabel e1 l T = .ok e1 := by
  simp only [setLabel] at h ⊢
  cases hp : patchBranch l.1 l.2 T (readLE e.mem l.1 4) with
  | error s =>
    rw [hp] at h
    exact absurd h (by simp)
  | ok w =>
    rw [hp, Except.ok.injEq] at h
    subst h
    have hw32 : w < 2 ^ 32 := patchBranch_lt _ _ _ _ _ hp
    have hrd : readLE (storeLE e.mem l.1 4 w) l.1 4 = w := by
      rw [readLE_storeLE]
      rw [show (256 : Nat) ^ 4 = 2 ^ 32 by norm_num, Nat.mod_eq_of_lt hw32]
    rw [hrd, patchBranch_idem _ _ _ _ _ hp]
    show Except.ok { e with mem := storeLE (storeLE e.mem l.1 4 w) l.1 4 w } = _
    rw [storeLE_storeLE_same]

/-- C9 witness: a concrete in-range `Branch14` resolution performed
twice. -/
theorem setLabel_idempotent_spot :
    setLabel (mkEmitter 0 64) (0, BranchType.Branch14) 8 =
      Except.ok { mkEmitter 0 64 with mem := storeLE (mkEmitter 0 64).mem 0 4 8 } ∧
    setLabel { mkEmitter 0 64 with mem := storeLE (mkEmitter 0 64).mem 0 4 8 }
        (0, BranchType.Branch14) 8 =
      Except.ok { mkEmitter 0 64 with mem := storeLE (mkEmitter 0 64).mem 0 4 8 } :=
  ⟨rfl, setLabel_idempotent (mkEmitter 0 64) (0, BranchType.Branch14) 8 _ rfl⟩

/-- A `FixedSize` emission step: every emission operation of the class
(instruction, pseudo-op or directive) is a finite sequence of
`write<T>` calls, and label resolution is a `setLabel` call. -/
inductive EmitOp
  | wr (n v : Nat)
  | setLbl (label : Nat × BranchType) (address : Nat)

/-- Execute one emission step on a `FixedSize` emitter. -/
def execOp (e : PPCEmitter) : EmitOp → Except String PPCEmitter
  | .wr n v => .ok (write n v e)
  | .setLbl l a => setLabel e l a

/-- Execute a sequence of emission steps, stopping at the first fatal
error. -/
def execOps (e : PPCEmitter) : List EmitOp → Except String PPCEmitter
  | [] => .ok e
  | op :: rest =>
    match execOp e op with
    | .ok e1 => execOps e1 rest
    | .error s => .error s

theorem execOp_invariant (e e1 : PPCEmitter) (op : EmitOp) (h : execOp e op = .ok e1) :
    e1.code = e.code ∧ e1.reservedSize = e.reservedSize ∧ getCodeSize e ≤ getCodeSize e1 := by
  cases op with
  | wr n v =>
    simp only [execOp, Except.ok.injEq] at h
    subst h
    refine ⟨rfl, rfl, ?_⟩
    simp only [write, getCodeSize]
    omega
  | setLbl l a =>
    simp only [execOp, setLabel] at h
    cases hp : patchBranch l.1 l.2 a (readLE e.mem l.1 4) with
    | error s =>
      rw [hp] at h
      exact absurd h (by simp)
    | ok w =>
      rw [hp, Except.ok.injEq] at h
      subst h
      exact ⟨rfl, rfl, Nat.le_refl _⟩

/-- C10: on a `FixedSize` emitter no sequence of emission operations
(writes of any size, hence every instruction or directive, and any
`setLabel` call) ever changes the buffer base pointer or the reserved
size, and the used size never decreases; only `setBuffer` replaces the
base pointer and the reserved size. -/
theorem fixedsize_buffer_invariant (ops : List EmitOp) :
    ∀ e e1 : PPCEmitter, execOps e ops = .ok e1 →
      e1.code = e.code ∧ e1.reservedSize = e.reservedSize ∧
        getCodeSize e ≤ getCodeSize e1 ∧
        ∀ p sz e2, setBuffer p sz e = .ok e2 → e2.code = p ∧ e2.reservedSize = sz := by
  induction ops with
  | nil =>
    intro e e1 h
    simp only [execOps, Except.ok.injEq] at h
    subst h
    refine ⟨rfl, rfl, Nat.le_refl _, ?_⟩
    intro p sz e2 h2
    simp only [setBuffer] at h2
    split at h2
    · exact absurd h2 (by simp)
    · rw [Except.ok.injEq] at h2
      subst h2
      exact ⟨rfl, rfl⟩
  | cons op rest ih =>
    intro e e1 h
    simp only [execOps] at h
    cases hop : execOp e op with
    | error s =>
      rw [hop] at h
      exact absurd h (by simp)
    | ok emid =>
      rw [hop] at h
      obtain ⟨h1, h2, h3, _⟩ := ih emid e1 h
      obtain ⟨s1, s2, s3⟩ := execOp_invariant e emid op hop
      refine ⟨h1.trans s1, h2.trans s2, Nat.le_trans s3 h3, ?_⟩
      intro p sz e2 hsb
      simp only [setBuffer] at hsb
      split at hsb
      · exact absurd hsb (by simp)
      · rw [Except.ok.injEq] at hsb
        subst hsb
        exact ⟨rfl, rfl⟩

/-- C10 witness: a one-word append on a fresh emitter. -/
theorem fixedsize_buffer_invariant_spot :
    execOps (mkEmitter 0 64) [EmitOp.wr 4 0] = .ok (write 4 0 (mkEmitter 0 64)) ∧
      (write 4 0 (mkEmitter 0 64)).code = (mkEmitter 0 64).code ∧
      (write 4 0 (mkEmitter 0 64)).reservedSize = (mkEmitter 0 64).reservedSize ∧
      getCodeSize (mkEmitter 0 64) ≤ getCodeSize (write 4 0 (mkEmitter 0 64)) ∧
      ∀ p sz e2, setBuffer p sz (mkEmitter 0 64) = .ok e2 →
        e2.code = p ∧ e2.reservedSize = sz :=
  ⟨rfl, (fixedsize_buffer_invariant [EmitOp.wr 4 0] (mkEmitter 0 64)
    (write 4 0 (mkEmitter 0 64)) rfl)⟩

end Luma
